import Mathlib

/-!
Verification of the function-timing decorator subsystem of underbar
(src/src/underbar.js): the decorators once, memoize, delay and throttle.

The JavaScript source is shallowly embedded: each decorator's closure state
becomes an explicit state record, each wrapper call becomes a state-passing
function that also reports the list of invocations of the wrapped function
it performed (each invocation record carries the this-context and argument
list actually passed), and the host timer facility becomes an explicit
queue of pending timer events.  Times are naturals (milliseconds).
-/

namespace Underbar

/-- JS values, restricted to the fragment the decorator subsystem
manipulates: undefined, null, booleans, integer-valued numbers and
strings.  Numbers are modelled as integers since the decorators and the
claims use no fractional values. -/
inductive JSVal : Type
  | undef
  | null
  | bool (b : Bool)
  | num (n : Int)
  | str (s : String)
  deriving DecidableEq, Repr

/-- JS truthiness for the modelled value fragment: undefined, null, false,
0 and the empty string are falsy; everything else is truthy. -/
def JSVal.truthy : JSVal → Bool
  | .undef => false
  | .null => false
  | .bool b => b
  | .num n => n != 0
  | .str s => s != ""

/-- JS property-key string coercion, as performed by `results[arguments[0]]`
in the source: the value is converted to its string representation before
being used as an object key. -/
def JSVal.toKey : JSVal → String
  | .undef => "undefined"
  | .null => "null"
  | .bool true => "true"
  | .bool false => "false"
  | .num n => toString n
  | .str s => s

/-!
## once  (underbar.js lines 253-265)

    _.once = func => {
      var alreadyCalled = false;
      var result;
      return function() {
        if (!alreadyCalled) {
          result = func.apply(this, arguments);
          alreadyCalled = true;
        }
        return result;
      };
    };

The closure variables become `OnceState`.  The wrapper's input is a single
value `a : α` standing for the pair (this-context, argument list) that
`func.apply(this, arguments)` forwards unchanged.  `result` starts as the
JS `undefined`, modelled by `none`; the wrapper's return value is likewise
an `Option β` (`none` standing for `undefined`).  Since `func` may throw,
the faithful model `onceCallE` lets it return `Except`; `result = func(...)`
followed by `alreadyCalled = true` means neither assignment happens when
`func` throws.
-/

/-- Closure state of a once-wrapper: the variables `alreadyCalled` and
`result` of the source. -/
structure OnceState (β : Type) where
  alreadyCalled : Bool
  result : Option β
  deriving DecidableEq, Repr

/-- State at wrap time: `alreadyCalled = false`, `result` undefined. -/
def OnceState.init : OnceState β := ⟨false, none⟩

/-- One call of the wrapper returned by `_.once`, for a wrapped function
that may throw.  Returns the new closure state, the list of invocations of
`func` performed by this call (the inputs actually passed to it), and the
wrapper's outcome: the value returned, or the error propagated. -/
def onceCallE (func : α → Except ε β) (s : OnceState β) (a : α) :
    OnceState β × List α × Except ε (Option β) :=
  if s.alreadyCalled then
    (s, [], Except.ok s.result)
  else
    match func a with
    | Except.error e => (s, [a], Except.error e)
    | Except.ok r => (⟨true, some r⟩, [a], Except.ok (some r))

/-- One call of the once-wrapper for a non-throwing wrapped function:
the special case of `onceCallE` where `func` always succeeds. -/
def onceCall (func : α → β) (s : OnceState β) (a : α) :
    OnceState β × List α × Option β :=
  if s.alreadyCalled then
    (s, [], s.result)
  else
    (⟨true, some (func a)⟩, [a], some (func a))

/-- A sequence of calls of the once-wrapper: final state, concatenated
invocations of `func`, and the value returned to each caller in order. -/
def onceRun (func : α → β) : OnceState β → List α → OnceState β × List α × List (Option β)
  | s, [] => (s, [], [])
  | s, a :: as =>
    let p := onceCall func s a
    let q := onceRun func p.1 as
    (q.1, p.2.1 ++ q.2.1, p.2.2 :: q.2.2)

theorem onceCall_already (func : α → β) (r : Option β) (a : α) :
    onceCall func ⟨true, r⟩ a = (⟨true, r⟩, [], r) := rfl

theorem onceRun_already (func : α → β) (r : Option β) (as : List α) :
    onceRun func ⟨true, r⟩ as = (⟨true, r⟩, [], List.replicate as.length r) := by
  induction as with
  | nil => rfl
  | cons a as ih => simp [onceRun, onceCall_already, ih, List.replicate_succ]

/-!
## memoize  (underbar.js lines 275-284)

    _.memoize = func => {
      var results = {}
      return function() {
        if (!results[arguments[0]]) {
          results[arguments[0]] = func.apply(this, arguments);
        }
        return results[arguments[0]];
      }
    };

The object `results` becomes an association list from string keys to
`JSVal` (JS object property access coerces the key to a string; absent
properties read as `undefined`).  A wrapper call carries a this-context
and the full argument list; `func.apply(this, arguments)` forwards both,
while the cache key is `arguments[0]` alone.  The cache test is the
truthiness of the stored value, exactly as in the source.
-/

/-- The `results` object of a memoize-wrapper: string keys to values. -/
abbrev MemoTable := List (String × JSVal)

/-- Property read `results[k]`: the stored value, or `undefined` when the
key is absent. -/
def memoLookup : MemoTable → String → JSVal
  | [], _ => JSVal.undef
  | p :: rest, k => if p.1 == k then p.2 else memoLookup rest k

/-- Property write `results[k] = v`: replace the binding when the key is
present, append it otherwise. -/
def memoStore (results : MemoTable) (k : String) (v : JSVal) : MemoTable :=
  match results with
  | [] => [(k, v)]
  | p :: rest => if p.1 == k then (k, v) :: rest else p :: memoStore rest k v

/-- The value of `arguments[0]`: the first argument, or `undefined` when
the wrapper is called with no arguments. -/
def argsFirst (args : List JSVal) : JSVal := args.headD JSVal.undef

/-- One call of the wrapper returned by `_.memoize`: new table, list of
invocations of `func` performed (each with the this-context and the full
argument list that `func.apply(this, arguments)` passes), and the value
returned (`results[arguments[0]]`, re-read after any store). -/
def memoizeCall (func : JSVal → List JSVal → JSVal) (results : MemoTable)
    (thisv : JSVal) (args : List JSVal) :
    MemoTable × List (JSVal × List JSVal) × JSVal :=
  let k := (argsFirst args).toKey
  if (memoLookup results k).truthy then
    (results, [], memoLookup results k)
  else
    let results2 := memoStore results k (func thisv args)
    (results2, [(thisv, args)], memoLookup results2 k)

/-- A sequence of wrapper calls, each a pair (this-context, argument
list): final table, concatenated invocations of `func`, and the values
returned in order. -/
def memoizeRun (func : JSVal → List JSVal → JSVal) :
    MemoTable → List (JSVal × List JSVal) →
      MemoTable × List (JSVal × List JSVal) × List JSVal
  | results, [] => (results, [], [])
  | results, c :: cs =>
    let p := memoizeCall func results c.1 c.2
    let q := memoizeRun func p.1 cs
    (q.1, p.2.1 ++ q.2.1, p.2.2 :: q.2.2)

theorem memoLookup_memoStore_self (results : MemoTable) (k : String) (v : JSVal) :
    memoLookup (memoStore results k v) k = v := by
  induction results with
  | nil => simp [memoStore, memoLookup]
  | cons p rest ih =>
    by_cases h : p.1 = k
    · simp [memoStore, memoLookup, h]
    · simpa [memoStore, memoLookup, h] using ih

theorem memoLookup_memoStore_other (results : MemoTable) (k k2 : String) (v : JSVal)
    (h : k2 ≠ k) : memoLookup (memoStore results k v) k2 = memoLookup results k2 := by
  induction results with
  | nil => simp [memoStore, memoLookup, Ne.symm h]
  | cons p rest ih =>
    by_cases hp : p.1 = k
    · simp [memoStore, memoLookup, hp, Ne.symm h]
    · by_cases hp2 : p.1 = k2 <;> simp [memoStore, memoLookup, hp, hp2, h, ih]

theorem memoStore_keys_mono (results : MemoTable) (k k2 : String) (v : JSVal)
    (h : k2 ∈ results.map Prod.fst) :
    k2 ∈ (memoStore results k v).map Prod.fst := by
  induction results with
  | nil => simp at h
  | cons p rest ih =>
    simp only [List.map_cons, List.mem_cons] at h
    by_cases hp : p.1 = k
    · rw [show memoStore (p :: rest) k v = (k, v) :: rest by simp [memoStore, hp]]
      simp only [List.map_cons, List.mem_cons]
      rcases h with h | h
      · exact Or.inl (h.trans hp)
      · exact Or.inr h
    · rw [show memoStore (p :: rest) k v = p :: memoStore rest k v by simp [memoStore, hp]]
      simp only [List.map_cons, List.mem_cons]
      rcases h with h | h
      · exact Or.inl h
      · exact Or.inr (ih h)

/-!
## delay  (underbar.js lines 292-298)

    _.delay = function(func, wait) {
      var args = _.map(arguments, item => item).slice(2);
      setTimeout(function(){
        func.apply(this, args);
      }, wait);
    };

The `arguments` object is modelled as the list of values the caller
passed, the first two positions holding the `func` and `wait` slots.
`_.map` (lines 110-118) pushes `iterator(item)` for each element onto a
fresh array; with the identity iterator this copies the list, and
`.slice(2)` drops the two leading slots.  The host timer facility is
modelled by the `DelayedCall` record: scheduling returns at once (the
list of synchronous invocations of `func` is the first component of the
result and is empty), and the facility may fire the callback only at an
instant `t` with `canFire d t`, i.e. no earlier than `wait` milliseconds
after scheduling.
-/

/-- The source's `_.map(collection, iterator)`: push `iterator(item)` for
each element, in order, onto an initially empty result array. -/
def underbarMap (collection : List α) (iterator : α → β) : List β :=
  collection.foldl (fun results item => results ++ [iterator item]) []

/-- The argument list `_.delay` forwards to the deferred call:
`_.map(arguments, item => item).slice(2)`. -/
def delayForwardedArgs (argumentsList : List α) : List α :=
  (underbarMap argumentsList (fun item => item)).drop 2

/-- A callback scheduled with the host timer facility: the instant at
which it was scheduled, the requested wait, and the argument list the
closure captured. -/
structure DelayedCall (α : Type) where
  scheduledAt : Nat
  wait : Nat
  args : List α
  deriving DecidableEq, Repr

/-- The timer facility's contract: a scheduled callback runs no earlier
than `wait` milliseconds after it was scheduled. -/
def DelayedCall.canFire (d : DelayedCall α) (t : Nat) : Prop :=
  d.scheduledAt + d.wait ≤ t

/-- A call to `_.delay` at instant `now`, with the full JS `arguments`
list: the synchronous invocations of `func` it performs (none — the body
only calls `setTimeout`) and the callback it schedules. -/
def delay (now : Nat) (wait : Nat) (argumentsList : List α) :
    List (List α) × DelayedCall α :=
  ([], ⟨now, wait, delayForwardedArgs argumentsList⟩)

/-- Firing a scheduled delay callback: `func.apply(this, args)` with the
captured argument list. -/
def fireDelayed (func : List α → β) (d : DelayedCall α) : β :=
  func d.args

theorem underbarMap_id (l : List α) : underbarMap l (fun item => item) = l := by
  have key : ∀ (l acc : List α),
      l.foldl (fun results item => results ++ [item]) acc = acc ++ l := by
    intro l
    induction l with
    | nil => simp
    | cons a l ih => intro acc; simp [List.foldl_cons, ih]
  simpa using key l []

/-!
## throttle  (underbar.js lines 447-470)

    _.throttle = (func, wait) => {
      var lastTrigger;
      var timer;
      var results;
      return function () {
        var now = Date.now();
        if (lastTrigger && now < lastTrigger + wait) {
          clearTimeout(timer);
          timer = setTimeout(function () {
            lastTrigger = now;
            results = func.apply(this, arguments);
          }, wait);
        } else {
          lastTrigger = now;
          results = func.apply(this, arguments);
        }
      };
    };

`ThrottleState` holds the closure variables together with the host timer
facility's view: `queue` is the list of pending timer events this wrapper
has scheduled, `nextId` the supply of fresh timeout handles.  Details
carried over from the JavaScript semantics:

  * `lastTrigger` is a var that starts undefined; the guard tests its
    truthiness (`lastTrigger &&`), so the number 0 also fails it.
  * Inside the scheduled callback, `now` is captured from the enclosing
    call (so the trailing fire records the schedule-time instant), while
    `this` and `arguments` are the callback's own: the host invokes it
    with no arguments and a host-supplied default context (modelled as
    `undefined`).
  * `clearTimeout(timer)` removes the pending event whose id the `timer`
    var holds (a no-op when the var is undefined or the event already
    fired); `setTimeout` appends a fresh event due `wait` later.
  * The wrapper body has no return statement, so every call returns
    `undefined`; `results` is assigned but never read.

The event loop is deterministic: a pending timer fires exactly at its due
time, so when the wrapper is called at instant `t`, every event due at or
before `t` fires first (`fireDue`).
-/

/-- A pending timeout scheduled by a throttle wrapper: its handle, the
instant it is due, and the scheduling call's `now` captured by the
callback's closure. -/
structure TimerEvt where
  id : Nat
  fireTime : Nat
  capturedNow : Nat
  deriving DecidableEq, Repr

/-- Closure state of a throttle wrapper (`lastTrigger`, `timer`,
`results`) together with the timer facility's pending events for this
wrapper and the fresh-handle supply. -/
structure ThrottleState where
  lastTrigger : Option Nat
  timer : Option Nat
  results : Option JSVal
  queue : List TimerEvt
  nextId : Nat
  deriving DecidableEq, Repr

/-- State at wrap time: all three vars undefined, no pending timer. -/
def ThrottleState.init : ThrottleState := ⟨none, none, none, [], 0⟩

/-- One invocation of the wrapped function: the instant it runs, the
this-context and argument list passed to it, and whether it came from the
trailing timer callback. -/
structure Invocation where
  time : Nat
  thisv : JSVal
  args : List JSVal
  trailing : Bool
  deriving DecidableEq, Repr

/-- Truthiness of the `lastTrigger` var: undefined is falsy, and so is
the number 0. -/
def numTruthy : Option Nat → Bool
  | none => false
  | some n => n != 0

/-- The guard `lastTrigger && now < lastTrigger + wait` of the wrapper. -/
def inCooldown (wait : Nat) (s : ThrottleState) (now : Nat) : Bool :=
  numTruthy s.lastTrigger && decide (now < s.lastTrigger.getD 0 + wait)

/-- One call of the wrapper returned by `_.throttle`, at instant `now`
with the given this-context and arguments: new state, invocations of
`func` performed synchronously by this call, and the value returned to
the caller (always `undefined`: the body has no return statement). -/
def throttleCall (wait : Nat) (func : JSVal → List JSVal → JSVal)
    (s : ThrottleState) (now : Nat) (thisv : JSVal) (args : List JSVal) :
    ThrottleState × List Invocation × JSVal :=
  if inCooldown wait s now then
    ({ s with
        queue := s.queue.filter (fun e => !(s.timer == some e.id)) ++
          [⟨s.nextId, now + wait, now⟩],
        timer := some s.nextId,
        nextId := s.nextId + 1 },
     [], JSVal.undef)
  else
    ({ s with lastTrigger := some now, results := some (func thisv args) },
     [⟨now, thisv, args, false⟩], JSVal.undef)

/-- The trailing timer callback firing: `lastTrigger = now` (the captured
schedule-time instant) and `func.apply(this, arguments)` — where `this`
and `arguments` are the callback's own, so `func` receives the host
default context and no arguments.  The fired event leaves the pending
queue. -/
def fireEvt (func : JSVal → List JSVal → JSVal) (s : ThrottleState) (e : TimerEvt) :
    ThrottleState × List Invocation :=
  ({ s with
      lastTrigger := some e.capturedNow,
      results := some (func JSVal.undef []),
      queue := s.queue.filter (fun e2 => !(e2.id == e.id)) },
   [⟨e.fireTime, JSVal.undef, [], true⟩])

/-- Fire a list of timer events in order, accumulating the invocations. -/
def fireList (func : JSVal → List JSVal → JSVal) :
    ThrottleState → List TimerEvt → ThrottleState × List Invocation
  | s, [] => (s, [])
  | s, e :: es =>
    let p := fireEvt func s e
    let q := fireList func p.1 es
    (q.1, p.2 ++ q.2)

/-- Fire every pending timer that is due at or before instant `t`. -/
def fireDue (func : JSVal → List JSVal → JSVal) (s : ThrottleState) (t : Nat) :
    ThrottleState × List Invocation :=
  fireList func s (s.queue.filter (fun e => decide (e.fireTime ≤ t)))

/-- Fire every remaining pending timer (run the event loop to the end). -/
def flushAll (func : JSVal → List JSVal → JSVal) (s : ThrottleState) :
    ThrottleState × List Invocation :=
  fireList func s s.queue

/-- An external call of the throttle wrapper: the instant it occurs, and
the this-context and argument list it passes. -/
structure Stim where
  time : Nat
  thisv : JSVal
  args : List JSVal
  deriving DecidableEq, Repr

/-- Process one external wrapper call: first fire every timer due by its
instant, then run the wrapper body. -/
def throttleStep (wait : Nat) (func : JSVal → List JSVal → JSVal)
    (s : ThrottleState) (st : Stim) : ThrottleState × List Invocation × JSVal :=
  let p := fireDue func s st.time
  let q := throttleCall wait func p.1 st.time st.thisv st.args
  (q.1, p.2 ++ q.2.1, q.2.2)

/-- Process a sequence of external wrapper calls: final state, all
invocations of `func` in order, and the value each call returned. -/
def throttleRun (wait : Nat) (func : JSVal → List JSVal → JSVal) :
    ThrottleState → List Stim → ThrottleState × List Invocation × List JSVal
  | s, [] => (s, [], [])
  | s, st :: rest =>
    let p := throttleStep wait func s st
    let q := throttleRun wait func p.1 rest
    (q.1, p.2.1 ++ q.2.1, p.2.2 :: q.2.2)

/-- Process a sequence of external wrapper calls and then let every still
pending timer fire. -/
def throttleRunFlush (wait : Nat) (func : JSVal → List JSVal → JSVal)
    (s : ThrottleState) (stims : List Stim) :
    ThrottleState × List Invocation × List JSVal :=
  let p := throttleRun wait func s stims
  let q := flushAll func p.1
  (q.1, p.2.1 ++ q.2, p.2.2)

/-- Every state the throttle wrapper's environment passes through while
processing a sequence of external calls: the state before each call,
after the due timers fired, and so on, ending with the final state. -/
def throttleStates (wait : Nat) (func : JSVal → List JSVal → JSVal) :
    ThrottleState → List Stim → List ThrottleState
  | s, [] => [s]
  | s, st :: rest =>
    let s1 := (fireDue func s st.time).1
    let s2 := (throttleCall wait func s1 st.time st.thisv st.args).1
    s :: s1 :: throttleStates wait func s2 rest

/-!
## Sample wrapped functions

Concrete functions used to instantiate the universally quantified
theorems below at explicit inputs.
-/

/-- A wrapped function that ignores its input and returns undefined. -/
def constUndef : JSVal → List JSVal → JSVal := fun _ _ => JSVal.undef

/-- A wrapped function that always returns the falsy number 0. -/
def constZero : JSVal → List JSVal → JSVal := fun _ _ => JSVal.num 0

/-- A wrapped function that always returns the truthy number 5. -/
def constFive : JSVal → List JSVal → JSVal := fun _ _ => JSVal.num 5

/-- A wrapped function returning how many arguments it received. -/
def argCount : JSVal → List JSVal → JSVal := fun _ args => JSVal.num args.length

/-- A wrapped function that always throws. -/
def errBoom : Unit → Except String Nat := fun _ => Except.error "boom"

/-!
## Claims about once
-/

/-- C4: the wrapper returned by `_.once` invokes the wrapped function
exactly one time across any number of calls.  Running the wrapper on any
nonempty call sequence `a :: as` (each element standing for one call's
this-context and argument list) invokes `func` exactly once, on the first
call's input, and every call — whatever its own input — returns that
first result. -/
theorem once_first_call_wins (func : α → β) (a : α) (as : List α) :
    onceRun func OnceState.init (a :: as) =
      (⟨true, some (func a)⟩, [a], List.replicate (as.length + 1) (some (func a))) := by
  simp [onceRun, onceCall, OnceState.init, onceRun_already, List.replicate_succ]

/-- C5: when the wrapped function throws on the first call through the
once-wrapper, the error propagates to that caller, `alreadyCalled` and
`result` are left unset (the state is still the initial one), and a
subsequent call attempts to invoke the wrapped function again. -/
theorem once_error_leaves_state_unset (func : α → Except ε β) (a a2 : α) (e : ε)
    (h : func a = Except.error e) :
    onceCallE func OnceState.init a = (OnceState.init, [a], Except.error e) ∧
    (onceCallE func (onceCallE func OnceState.init a).1 a2).2.1 = [a2] := by
  have h1 : onceCallE func OnceState.init a = (OnceState.init, [a], Except.error e) := by
    simp [onceCallE, OnceState.init, h]
  refine ⟨h1, ?_⟩
  rw [h1]
  cases hfa : func a2 <;> simp [onceCallE, OnceState.init, hfa]

/-- Witness for C5: a function that always throws, called twice through
the once-wrapper, throws to the first caller, leaves the state initial
and is attempted again on the second call. -/
theorem once_error_leaves_state_unset_witness :
    onceCallE errBoom OnceState.init () = (OnceState.init, [()], Except.error "boom") ∧
    (onceCallE errBoom (onceCallE errBoom OnceState.init ()).1 ()).2.1 = [()] :=
  once_error_leaves_state_unset errBoom () () "boom" rfl

/-!
## Claims about memoize
-/

theorem memoizeRun_falsy_replicate (func : JSVal → List JSVal → JSVal) (thisv k : JSVal)
    (hf : (func thisv [k]).truthy = false) :
    ∀ (m : Nat) (results : MemoTable),
      (memoLookup results k.toKey).truthy = false →
      (memoizeRun func results (List.replicate m (thisv, [k]))).2.1 =
        List.replicate m (thisv, [k]) := by
  intro m
  induction m with
  | zero => intro results _; rfl
  | succ m ih =>
    intro results hl
    have hstep : memoizeCall func results thisv [k] =
        (memoStore results k.toKey (func thisv [k]), [(thisv, [k])],
          memoLookup (memoStore results k.toKey (func thisv [k])) k.toKey) := by
      simp [memoizeCall, argsFirst, hl]
    have hl2 : (memoLookup (memoStore results k.toKey (func thisv [k])) k.toKey).truthy
        = false := by
      rw [memoLookup_memoStore_self]; exact hf
    simp only [List.replicate_succ, memoizeRun, hstep]
    simp [ih _ hl2]

/-- C6: when the wrapped function's result for a key is falsy, the
memoize-wrapper re-invokes it on every call with that key: a run of `m`
calls with key `k` performs `m` invocations, because the cache test uses
the truthiness of the stored value rather than key presence. -/
theorem memoize_falsy_result_recomputed (func : JSVal → List JSVal → JSVal)
    (thisv k : JSVal) (m : Nat) (h : (func thisv [k]).truthy = false) :
    (memoizeRun func [] (List.replicate m (thisv, [k]))).2.1 =
      List.replicate m (thisv, [k]) :=
  memoizeRun_falsy_replicate func thisv k h m [] rfl

/-- Witness for C6: a function returning the falsy 0, memoized and
called three times with the key "a", is invoked three times. -/
theorem memoize_falsy_result_recomputed_witness :
    (memoizeRun constZero [] (List.replicate 3 (JSVal.undef, [JSVal.str "a"]))).2.1 =
      List.replicate 3 (JSVal.undef, [JSVal.str "a"]) :=
  memoize_falsy_result_recomputed constZero JSVal.undef (JSVal.str "a") 3 (by decide)

/-- C7 counterexample: with the wrapped function constantly returning
the falsy 0, the first call with key "a" leaves the key present in the
table, yet a second call with the same key invokes the function again —
two invocations where the claim allows only one. -/
theorem memoize_present_key_recomputed_counterexample :
    (memoizeRun constZero [] [(JSVal.undef, [JSVal.str "a"])]).1 =
      [("a", JSVal.num 0)] ∧
    (memoizeRun constZero []
        [(JSVal.undef, [JSVal.str "a"]), (JSVal.undef, [JSVal.str "a"])]).2.1 =
      [(JSVal.undef, [JSVal.str "a"]), (JSVal.undef, [JSVal.str "a"])] := by
  decide

/-- C7 amended: a key present in the table *with a truthy stored value*
is never recomputed (such a call changes nothing and invokes nothing);
the key set grows monotonically on every call; calling twice with the
same key returns identical results and invokes the function only once
*provided its result for that key is truthy*; and two calls with keys of
distinct string representation invoke the function once per key. -/
theorem memoize_table_invariants (func : JSVal → List JSVal → JSVal)
    (results : MemoTable) (thisv : JSVal) (args : List JSVal) (k k1 k2 : JSVal) :
    ((memoLookup results (argsFirst args).toKey).truthy = true →
      memoizeCall func results thisv args =
        (results, [], memoLookup results (argsFirst args).toKey)) ∧
    (∀ k3 ∈ results.map Prod.fst,
      k3 ∈ (memoizeCall func results thisv args).1.map Prod.fst) ∧
    ((func thisv [k]).truthy = true →
      memoizeRun func [] [(thisv, [k]), (thisv, [k])] =
        ([(k.toKey, func thisv [k])], [(thisv, [k])],
          [func thisv [k], func thisv [k]])) ∧
    (k1.toKey ≠ k2.toKey →
      (memoizeRun func [] [(thisv, [k1]), (thisv, [k2])]).2.1 =
        [(thisv, [k1]), (thisv, [k2])]) := by
  refine ⟨?_, ?_, ?_, ?_⟩
  · intro h
    simp [memoizeCall, h]
  · intro k3 h3
    by_cases h : (memoLookup results (argsFirst args).toKey).truthy
    · simpa [memoizeCall, h] using h3
    · simp only [memoizeCall, h]
      simp only [Bool.false_eq_true, if_false]
      exact memoStore_keys_mono results _ k3 _ h3
  · intro h
    have h1 : memoizeCall func [] thisv [k] =
        ([(k.toKey, func thisv [k])], [(thisv, [k])], func thisv [k]) := by
      simp [memoizeCall, argsFirst, memoLookup, memoStore, JSVal.truthy]
    have h2 : memoizeCall func [(k.toKey, func thisv [k])] thisv [k] =
        ([(k.toKey, func thisv [k])], [], func thisv [k]) := by
      simp [memoizeCall, argsFirst, memoLookup, h]
    simp [memoizeRun, h1, h2]
  · intro h
    have h1 : memoizeCall func [] thisv [k1] =
        ([(k1.toKey, func thisv [k1])], [(thisv, [k1])], func thisv [k1]) := by
      simp [memoizeCall, argsFirst, memoLookup, memoStore, JSVal.truthy]
    have hl : memoLookup [(k1.toKey, func thisv [k1])] k2.toKey = JSVal.undef := by
      simp [memoLookup, h]
    have h2 : memoizeCall func [(k1.toKey, func thisv [k1])] thisv [k2] =
        (memoStore [(k1.toKey, func thisv [k1])] k2.toKey (func thisv [k2]),
          [(thisv, [k2])],
          memoLookup (memoStore [(k1.toKey, func thisv [k1])] k2.toKey (func thisv [k2]))
            k2.toKey) := by
      simp [memoizeCall, argsFirst, hl, JSVal.truthy]
    simp [memoizeRun, h1, h2]

/-- Witness for C7 at concrete inputs: a cache hit on a truthy stored
value returns it without invoking the function; a key already in the
table survives a further call; two calls with key "a" (truthy result)
invoke the function once; keys "a" and "b" invoke it once each. -/
theorem memoize_table_invariants_witness :
    memoizeCall argCount [("a", JSVal.num 1)] JSVal.undef [JSVal.str "a"] =
      ([("a", JSVal.num 1)], [], memoLookup [("a", JSVal.num 1)] "a") ∧
    memoizeRun argCount [] [(JSVal.undef, [JSVal.str "a"]), (JSVal.undef, [JSVal.str "a"])] =
      ([("a", argCount JSVal.undef [JSVal.str "a"])], [(JSVal.undef, [JSVal.str "a"])],
        [argCount JSVal.undef [JSVal.str "a"], argCount JSVal.undef [JSVal.str "a"]]) ∧
    (memoizeRun argCount [] [(JSVal.undef, [JSVal.str "a"]), (JSVal.undef, [JSVal.str "b"])]).2.1 =
      [(JSVal.undef, [JSVal.str "a"]), (JSVal.undef, [JSVal.str "b"])] :=
  ⟨(memoize_table_invariants argCount [("a", JSVal.num 1)] JSVal.undef [JSVal.str "a"]
      JSVal.undef JSVal.undef JSVal.undef).1 (by decide),
   (memoize_table_invariants argCount [] JSVal.undef [] (JSVal.str "a")
      JSVal.undef JSVal.undef).2.2.1 (by decide),
   (memoize_table_invariants argCount [] JSVal.undef [] JSVal.undef
      (JSVal.str "a") (JSVal.str "b")).2.2.2 (by decide)⟩

/-- C10: the memoize-wrapper keys its cache solely on the string
coercion of the first argument while invoking the wrapped function with
the caller's this-context and the full argument list.  A cache miss
invokes the function with everything that was passed; and when two calls
have first arguments with the same string representation and the first
result is truthy, the second call — whatever its this-context and
remaining arguments — performs no invocation and returns the first
call's cached result. -/
theorem memoize_keys_on_first_arg_string (func : JSVal → List JSVal → JSVal)
    (results : MemoTable) (thisv thisv2 : JSVal) (args args2 : List JSVal) :
    ((memoLookup results (argsFirst args).toKey).truthy = false →
      memoizeCall func results thisv args =
        (memoStore results (argsFirst args).toKey (func thisv args), [(thisv, args)],
          memoLookup (memoStore results (argsFirst args).toKey (func thisv args))
            (argsFirst args).toKey)) ∧
    ((argsFirst args).toKey = (argsFirst args2).toKey →
      (func thisv args).truthy = true →
      (memoizeRun func [] [(thisv, args), (thisv2, args2)]).2.1 = [(thisv, args)] ∧
      (memoizeRun func [] [(thisv, args), (thisv2, args2)]).2.2 =
        [func thisv args, func thisv args]) := by
  constructor
  · intro h
    simp [memoizeCall, h]
  · intro hk ht
    have h1 : memoizeCall func [] thisv args =
        ([((argsFirst args).toKey, func thisv args)], [(thisv, args)], func thisv args) := by
      simp [memoizeCall, memoLookup, memoStore, JSVal.truthy]
    have hl : memoLookup [((argsFirst args).toKey, func thisv args)]
        (argsFirst args2).toKey = func thisv args := by
      simp [memoLookup, hk]
    have h2 : memoizeCall func [((argsFirst args).toKey, func thisv args)] thisv2 args2 =
        ([((argsFirst args).toKey, func thisv args)], [], func thisv args) := by
      simp [memoizeCall, hl, ht]
    simp [memoizeRun, h1, h2]

/-- Witness for C10: `g(1, "x")` (key "1", result 2, truthy) followed by
`g("1", "y")` with a different this-context: the miss invokes the
function with the full first argument list, and the second call shares
the first call's cache entry, invoking nothing and returning 2. -/
theorem memoize_keys_on_first_arg_string_witness :
    (memoizeRun argCount []
        [(JSVal.undef, [JSVal.num 1, JSVal.str "x"]),
         (JSVal.null, [JSVal.str "1", JSVal.str "y"])]).2.1 =
      [(JSVal.undef, [JSVal.num 1, JSVal.str "x"])] ∧
    (memoizeRun argCount []
        [(JSVal.undef, [JSVal.num 1, JSVal.str "x"]),
         (JSVal.null, [JSVal.str "1", JSVal.str "y"])]).2.2 =
      [argCount JSVal.undef [JSVal.num 1, JSVal.str "x"],
       argCount JSVal.undef [JSVal.num 1, JSVal.str "x"]] :=
  (memoize_keys_on_first_arg_string argCount [] JSVal.undef JSVal.null
      [JSVal.num 1, JSVal.str "x"] [JSVal.str "1", JSVal.str "y"]).2
    (by decide) (by decide)

/-!
## Claim about delay
-/

/-- C8: `_.delay` performs no synchronous invocation of the wrapped
function; the scheduled callback captures exactly the arguments that
followed the wait parameter, in order, and firing it applies the
function to them; and the timer facility's contract lets it fire no
earlier than `wait` milliseconds after the call to `_.delay`. -/
theorem delay_schedules_exact_args (now wait : Nat) (funcSlot waitSlot : α)
    (rest : List α) (func : List α → β) :
    (delay now wait (funcSlot :: waitSlot :: rest)).1 = [] ∧
    (delay now wait (funcSlot :: waitSlot :: rest)).2.args = rest ∧
    fireDelayed func (delay now wait (funcSlot :: waitSlot :: rest)).2 = func rest ∧
    (∀ t, (delay now wait (funcSlot :: waitSlot :: rest)).2.canFire t ↔ now + wait ≤ t) := by
  have hargs : delayForwardedArgs (funcSlot :: waitSlot :: rest) = rest := by
    simp [delayForwardedArgs, underbarMap_id]
  refine ⟨rfl, ?_, ?_, ?_⟩
  · simp [delay, hargs]
  · simp [fireDelayed, delay, hargs]
  · intro t
    simp [delay, DelayedCall.canFire]

/-!
## Claims about throttle
-/

theorem throttleCall_ret_undef (wait : Nat) (func : JSVal → List JSVal → JSVal)
    (s : ThrottleState) (now : Nat) (thisv : JSVal) (args : List JSVal) :
    (throttleCall wait func s now thisv args).2.2 = JSVal.undef := by
  unfold throttleCall
  split <;> rfl

/-- C1 demonstration of the code bug: with `wait = 100` and wrapper
calls at instants 1, 10 and 115, the wrapped function runs at instants
1 (immediate), 110 (trailing; the callback sets `lastTrigger` to the
schedule-time instant 10, not 110) and 115 (immediate again, because
115 is at least 10 + 100) — the last two executions are only 5
milliseconds apart, inside one 100-millisecond window. -/
theorem throttle_two_executions_within_window :
    (throttleRun 100 constUndef ThrottleState.init
        [⟨1, JSVal.undef, [JSVal.str "a"]⟩, ⟨10, JSVal.undef, [JSVal.str "b"]⟩,
         ⟨115, JSVal.undef, [JSVal.str "c"]⟩]).2.1.map Invocation.time =
      [1, 110, 115] ∧
    115 - 110 < 100 := by
  decide

/-- C2 demonstration of the code bug: with `wait = 100`, a call at
instant 1 with argument "a" and a call at instant 10 with argument "b"
produce exactly one trailing execution, but it invokes the wrapped
function with an empty argument list — the trailing callback's own
`arguments` object, not the scheduling call's ["b"]. -/
theorem throttle_trailing_args_dropped :
    (throttleRunFlush 100 constUndef ThrottleState.init
        [⟨1, JSVal.undef, [JSVal.str "a"]⟩, ⟨10, JSVal.undef, [JSVal.str "b"]⟩]).2.1 =
      [⟨1, JSVal.undef, [JSVal.str "a"], false⟩, ⟨110, JSVal.undef, [], true⟩] ∧
    ([] : List JSVal) ≠ [JSVal.str "b"] := by
  refine ⟨by decide, by decide⟩

/-- C3 counterexample: the first call of a throttle wrapper takes the
immediate-execution path (one non-trailing invocation of the wrapped
function, which returns the number 5), yet the wrapper returns
undefined, not 5: the wrapper body has no return statement. -/
theorem throttle_immediate_return_counterexample :
    (throttleCall 100 constFive ThrottleState.init 1 JSVal.undef []).2.1 =
      [⟨1, JSVal.undef, [], false⟩] ∧
    (throttleCall 100 constFive ThrottleState.init 1 JSVal.undef []).2.2 = JSVal.undef ∧
    constFive JSVal.undef [] = JSVal.num 5 ∧
    JSVal.undef ≠ JSVal.num 5 := by
  refine ⟨by decide, by decide, by decide, by decide⟩

/-- C3 amended: every call of a throttle wrapper returns undefined — on
the immediate-execution path the wrapped function's return value is
stored in the internal `results` variable but never returned — and an
entire run returns undefined to every caller. -/
theorem throttle_always_returns_undefined (wait : Nat)
    (func : JSVal → List JSVal → JSVal) (s : ThrottleState) (now : Nat)
    (thisv : JSVal) (args : List JSVal) (stims : List Stim) :
    (throttleCall wait func s now thisv args).2.2 = JSVal.undef ∧
    (inCooldown wait s now = false →
      (throttleCall wait func s now thisv args).1.results = some (func thisv args)) ∧
    (throttleRun wait func s stims).2.2 = List.replicate stims.length JSVal.undef := by
  refine ⟨throttleCall_ret_undef wait func s now thisv args, ?_, ?_⟩
  · intro h
    simp [throttleCall, h]
  · induction stims generalizing s with
    | nil => rfl
    | cons st rest ih =>
      simp [throttleRun, throttleStep, List.replicate_succ, throttleCall_ret_undef, ih]

/-- Witness for C3 at concrete inputs: the first call (not in cooldown)
returns undefined while storing the wrapped function's result, and a
two-call run returns undefined to both callers. -/
theorem throttle_always_returns_undefined_witness :
    (throttleCall 100 constFive ThrottleState.init 1 JSVal.undef []).2.2 = JSVal.undef ∧
    (throttleCall 100 constFive ThrottleState.init 1 JSVal.undef []).1.results =
      some (constFive JSVal.undef []) ∧
    (throttleRun 100 constFive ThrottleState.init
        [⟨1, JSVal.undef, []⟩, ⟨10, JSVal.undef, []⟩]).2.2 =
      List.replicate 2 JSVal.undef :=
  ⟨(throttle_always_returns_undefined 100 constFive ThrottleState.init 1
      JSVal.undef [] []).1,
   (throttle_always_returns_undefined 100 constFive ThrottleState.init 1
      JSVal.undef [] []).2.1 (by decide),
   (throttle_always_returns_undefined 100 constFive ThrottleState.init 1
      JSVal.undef [] [⟨1, JSVal.undef, []⟩, ⟨10, JSVal.undef, []⟩]).2.2⟩

/-- The timer invariant of a throttle wrapper: its pending-timer queue
is empty, or holds exactly one event — the one whose handle the `timer`
var currently stores. -/
def timerInv (s : ThrottleState) : Prop :=
  s.queue = [] ∨ ∃ e, s.queue = [e] ∧ s.timer = some e.id

theorem timerInv_init : timerInv ThrottleState.init := Or.inl rfl

theorem timerInv_fireEvt (func : JSVal → List JSVal → JSVal) (s : ThrottleState)
    (e : TimerEvt) (h : timerInv s) : timerInv (fireEvt func s e).1 := by
  rcases h with h | ⟨e2, hq, ht⟩
  · left
    simp [fireEvt, h]
  · by_cases hid : e2.id = e.id
    · left
      simp [fireEvt, hq, hid]
    · right
      exact ⟨e2, by simp [fireEvt, hq, hid], ht⟩

theorem timerInv_fireList (func : JSVal → List JSVal → JSVal) :
    ∀ (es : List TimerEvt) (s : ThrottleState), timerInv s →
      timerInv (fireList func s es).1 := by
  intro es
  induction es with
  | nil => intro s h; exact h
  | cons e es ih =>
    intro s h
    exact ih _ (timerInv_fireEvt func s e h)

theorem timerInv_fireDue (func : JSVal → List JSVal → JSVal) (s : ThrottleState)
    (t : Nat) (h : timerInv s) : timerInv (fireDue func s t).1 :=
  timerInv_fireList func _ s h

theorem timerInv_throttleCall (wait : Nat) (func : JSVal → List JSVal → JSVal)
    (s : ThrottleState) (now : Nat) (thisv : JSVal) (args : List JSVal)
    (h : timerInv s) : timerInv (throttleCall wait func s now thisv args).1 := by
  unfold throttleCall
  split
  · right
    refine ⟨⟨s.nextId, now + wait, now⟩, ?_, rfl⟩
    rcases h with h | ⟨e, hq, ht⟩
    · simp [h]
    · simp [hq, ht]
  · rcases h with h | ⟨e, hq, ht⟩
    · exact Or.inl h
    · exact Or.inr ⟨e, hq, ht⟩

theorem throttleStates_timerInv (wait : Nat) (func : JSVal → List JSVal → JSVal) :
    ∀ (stims : List Stim) (s : ThrottleState), timerInv s →
      ∀ s2 ∈ throttleStates wait func s stims, timerInv s2 := by
  intro stims
  induction stims with
  | nil =>
    intro s hs s2 h2
    simp only [throttleStates, List.mem_singleton] at h2
    subst h2
    exact hs
  | cons st rest ih =>
    intro s hs s2 h2
    simp only [throttleStates, List.mem_cons] at h2
    rcases h2 with h2 | h2 | h2
    · subst h2; exact hs
    · subst h2; exact timerInv_fireDue func s st.time hs
    · exact ih _ (timerInv_throttleCall wait func _ st.time st.thisv st.args
        (timerInv_fireDue func s st.time hs)) s2 h2

/-- C9: at most one pending timer exists at any instant of a throttle
wrapper's lifetime.  The trailing branch is the only transition that
schedules a timer, and it first cancels the previously stored handle,
so every state the wrapper's environment passes through — across any
sequence of external calls from the initial state — has at most one
pending timer event in its queue. -/
theorem throttle_at_most_one_pending_timer (wait : Nat)
    (func : JSVal → List JSVal → JSVal) (stims : List Stim) (s2 : ThrottleState)
    (h : s2 ∈ throttleStates wait func ThrottleState.init stims) :
    s2.queue.length ≤ 1 := by
  have hinv := throttleStates_timerInv wait func stims ThrottleState.init
    timerInv_init s2 h
  rcases hinv with h2 | ⟨e, hq, _⟩
  · simp [h2]
  · simp [hq]

/-- Witness for C9: after calls at instants 1 and 10 (the second inside
the cooldown window, scheduling a trailing timer), the resulting state
is reached and holds exactly one pending timer. -/
theorem throttle_at_most_one_pending_timer_witness :
    ((⟨some 1, some 0, some JSVal.undef, [⟨0, 110, 10⟩], 1⟩ : ThrottleState)).queue.length ≤ 1 :=
  throttle_at_most_one_pending_timer 100 constUndef
    [⟨1, JSVal.undef, []⟩, ⟨10, JSVal.undef, []⟩]
    ⟨some 1, some 0, some JSVal.undef, [⟨0, 110, 10⟩], 1⟩ (by decide)

end Underbar
